import Mathlib

/-!
Verification of the niks3 client (S3-compatible Nix binary cache uploader).

This file gives a shallow embedding in Lean of the client's six source
modules and proves properties of the embedded code:

- nix_base32.rs : the custom base-32 digest encoder;
- nar.rs        : the NAR archive codec (length-prefixed, padded units,
                  sorted directory entries, case-hack stripping);
- nix_store.rs  : store-path hash extraction;
- main.rs       : closure preparation, narinfo rendering, and the
                  upload / complete pipeline of the push command.

Conventions: machine bytes are Nat values (less than 256 where it matters,
stated as an explicit hypothesis); u8 shifts and masks are embedded as
division, multiplication and remainder by powers of two (x >> j becomes
x / 2 ^ j, x << k on u8 becomes x * 2 ^ k % 256, x & 0x1f becomes
x % 32); the bitwise or of u8 stays Nat.lor.  Fallible Rust functions
returning anyhow::Result are embedded as Except String.  Async effects
(HTTP transfers, compression subprocesses) are abstracted as oracle
functions passed to the embedded pipeline, and the pipeline records the
externally visible calls it makes as an event trace.
-/

namespace Niks3

/-! ## nix_base32.rs -/

/-- The custom 32-symbol alphabet from nix_base32.rs (no e, o, u, t). -/
def NIX_BASE32_ALPHABET : List Char := "0123456789abcdfghijklmnpqrsvwxyz".data

/-- One iteration of the encoder loop of encode in nix_base32.rs: the
character pushed for loop counter n.  Mirrors the Rust body: b = n * 5,
i = b / 8, j = b % 8; c = input[i] >> j, or-ed with input[i+1] << (8 - j)
when that byte exists and j > 3; the index into the alphabet is c & 0x1f. -/
def encodeChar (input : List Nat) (n : Nat) : Char :=
  let b := n * 5
  let i := b / 8
  let j := b % 8
  let c0 : Nat := if i < input.length then input.getD i 0 / 2 ^ j else 0
  let c : Nat :=
    if i + 1 < input.length ∧ j > 3 then
      c0 ||| input.getD (i + 1) 0 * 2 ^ (8 - j) % 256
    else c0
  NIX_BASE32_ALPHABET.getD (c % 32) '0'

/-- encode from nix_base32.rs.  Empty input returns the empty string;
otherwise the output length is len = (input.len() * 8 - 1) / 5 + 1 and
characters are pushed for n = len - 1 down to 0. -/
def encode (input : List Nat) : String :=
  if input.isEmpty then "" else
  String.mk ((List.range ((input.length * 8 - 1) / 5 + 1)).reverse.map (encodeChar input))

/-- hash_to_nix_string from nix_base32.rs. -/
def hash_to_nix_string (algo : String) (hash : List Nat) : String :=
  algo ++ ":" ++ encode hash

/-- The little-endian value of a byte list: the number whose base-256
digits, least significant first, are the list elements. -/
def valueLE : List Nat → Nat
  | [] => 0
  | b :: bs => b + 256 * valueLE bs

example : encode [] = "" := by decide
example : encode [0] = "00" := by decide
example : encode [255] = "7z" := by decide
example : encode [1, 2] = "00h1" := by decide

/-- Or-ing a number below 2 ^ k with a multiple of 2 ^ k is addition:
the two operands occupy disjoint bit ranges. -/
theorem lor_two_pow_mul (k : Nat) : ∀ a m : Nat, a < 2 ^ k → a ||| 2 ^ k * m = a + 2 ^ k * m := by
  induction k with
  | zero =>
    intro a m ha
    have h0 : a = 0 := by omega
    subst h0
    simp
  | succ k ih =>
    intro a m ha
    have h2 : 2 ^ (k + 1) * m = Nat.bit false (2 ^ k * m) := by
      simp [Nat.bit_val]
      ring
    have h1 : a = Nat.bit (decide (a % 2 = 1)) (a / 2) := by
      rcases Nat.mod_two_eq_zero_or_one a with h | h <;>
        simp [Nat.bit_val, h] <;> omega
    have hlt : a / 2 < 2 ^ k := by
      have hp : 2 ^ (k + 1) = 2 * 2 ^ k := by ring
      omega
    calc a ||| 2 ^ (k + 1) * m
        = Nat.bit (decide (a % 2 = 1)) (a / 2) ||| Nat.bit false (2 ^ k * m) := by
          rw [← h1, ← h2]
      _ = Nat.bit (decide (a % 2 = 1) || false) (a / 2 ||| 2 ^ k * m) := Nat.lor_bit _ _ _ _
      _ = Nat.bit (decide (a % 2 = 1)) (a / 2 + 2 ^ k * m) := by
          rw [ih (a / 2) m hlt, Bool.or_false]
      _ = a + 2 ^ (k + 1) * m := by
          rcases Nat.mod_two_eq_zero_or_one a with h | h <;>
            simp [Nat.bit_val, h] <;> ring_nf <;> omega

/-- Dividing the little-endian value by 2 ^ (8 * i) discards the i least
significant bytes. -/
theorem valueLE_div_drop (l : List Nat) (h : ∀ x ∈ l, x < 256) :
    ∀ i, valueLE l / 2 ^ (8 * i) = valueLE (l.drop i) := by
  induction l with
  | nil => intro i; simp [valueLE]
  | cons b bs ih =>
    intro i
    cases i with
    | zero => simp
    | succ i =>
      have hb : b < 256 := h b (by simp)
      have h8 : (2:Nat) ^ (8 * (i + 1)) = 256 * 2 ^ (8 * i) := by
        have : 8 * (i + 1) = 8 + 8 * i := by ring
        rw [this, pow_add]
        norm_num
      rw [List.drop_succ_cons, ← ih (fun x hx => h x (by simp [hx])) i, h8,
        ← Nat.div_div_eq_div_mul]
      congr 1
      show (b + 256 * valueLE bs) / 256 = valueLE bs
      rw [Nat.add_mul_div_left _ _ (by norm_num), Nat.div_eq_of_lt hb, Nat.zero_add]

/-- The character the encoder loop pushes for counter n is exactly the n-th
5-bit group (weight 2 ^ (n * 5)) of the little-endian value of the input:
the two-byte shift-and-or computation in the Rust loop extracts that group. -/
theorem encodeChar_eq_group (input : List Nat) (h : ∀ x ∈ input, x < 256) (n : Nat) :
    encodeChar input n = NIX_BASE32_ALPHABET.getD (valueLE input / 2 ^ (n * 5) % 32) '0' := by
  obtain ⟨i, j, hj, hbij⟩ : ∃ i j, j < 8 ∧ n * 5 = 8 * i + j :=
    ⟨n * 5 / 8, n * 5 % 8, Nat.mod_lt _ (by norm_num), (Nat.div_add_mod (n * 5) 8).symm⟩
  have hi : n * 5 / 8 = i := by omega
  have hjj : n * 5 % 8 = j := by omega
  have hsplit : valueLE input / 2 ^ (n * 5) = valueLE (input.drop i) / 2 ^ j := by
    rw [hbij, pow_add, ← Nat.div_div_eq_div_mul, valueLE_div_drop input h i]
  rw [hsplit]
  unfold encodeChar
  simp only [hi, hjj]
  by_cases hilen : i < input.length
  · have hx : input.getD i 0 < 256 := by
      rw [List.getD_eq_getElem _ _ hilen]
      exact h _ (List.getElem_mem hilen)
    have hdrop : input.drop i = input.getD i 0 :: input.drop (i + 1) := by
      rw [List.getD_eq_getElem _ _ hilen]
      exact List.drop_eq_getElem_cons hilen
    set x := input.getD i 0 with hxdef
    set R := valueLE (input.drop (i + 1)) with hRdef
    have hval : valueLE (input.drop i) = x + 256 * R := by
      rw [hdrop]; rfl
    have hdivval : valueLE (input.drop i) / 2 ^ j = x / 2 ^ j + 2 ^ (8 - j) * R := by
      rw [hval]
      have h256 : (256 : Nat) = 2 ^ j * 2 ^ (8 - j) := by
        rw [← pow_add]
        have hjsum : j + (8 - j) = 8 := by omega
        rw [hjsum]
        norm_num
      rw [h256, Nat.mul_assoc, Nat.add_mul_div_left _ _ (Nat.pos_pow_of_pos j (by norm_num))]
    rw [hdivval]
    simp only [hilen, if_pos]
    by_cases hi1 : i + 1 < input.length
    · have hy : input.getD (i + 1) 0 < 256 := by
        rw [List.getD_eq_getElem _ _ hi1]
        exact h _ (List.getElem_mem hi1)
      set y := input.getD (i + 1) 0 with hydef
      have hdrop2 : input.drop (i + 1) = y :: input.drop (i + 2) := by
        rw [hydef, List.getD_eq_getElem _ _ hi1]
        exact List.drop_eq_getElem_cons hi1
      have hR : R = y + 256 * valueLE (input.drop (i + 2)) := by
        rw [hRdef, hdrop2]; rfl
      set R2 := valueLE (input.drop (i + 2)) with hR2def
      by_cases hj3 : j > 3
      · simp only [hi1, hj3, and_true, if_pos, true_and]
        congr 1
        interval_cases j
        · have hmod : y * 2 ^ (8 - 4) % 256 = 2 ^ (8 - 4) * (y % 2 ^ 4) := by
            show y * 16 % 256 = 16 * (y % 16)
            rw [Nat.mul_comm y 16]
            have : (256 : Nat) = 16 * 16 := by norm_num
            rw [this, Nat.mul_mod_mul_left]
          rw [hmod]
          rw [lor_two_pow_mul (8 - 4) _ _ (by show x / 2 ^ 4 < 2 ^ 4; omega)]
          omega
        · have hmod : y * 2 ^ (8 - 5) % 256 = 2 ^ (8 - 5) * (y % 2 ^ 5) := by
            show y * 8 % 256 = 8 * (y % 32)
            rw [Nat.mul_comm y 8]
            have : (256 : Nat) = 8 * 32 := by norm_num
            rw [this, Nat.mul_mod_mul_left]
          rw [hmod]
          rw [lor_two_pow_mul (8 - 5) _ _ (by show x / 2 ^ 5 < 2 ^ 3; omega)]
          omega
        · have hmod : y * 2 ^ (8 - 6) % 256 = 2 ^ (8 - 6) * (y % 2 ^ 6) := by
            show y * 4 % 256 = 4 * (y % 64)
            rw [Nat.mul_comm y 4]
            have : (256 : Nat) = 4 * 64 := by norm_num
            rw [this, Nat.mul_mod_mul_left]
          rw [hmod]
          rw [lor_two_pow_mul (8 - 6) _ _ (by show x / 2 ^ 6 < 2 ^ 2; omega)]
          omega
        · have hmod : y * 2 ^ (8 - 7) % 256 = 2 ^ (8 - 7) * (y % 2 ^ 7) := by
            show y * 2 % 256 = 2 * (y % 128)
            rw [Nat.mul_comm y 2]
            have : (256 : Nat) = 2 * 128 := by norm_num
            rw [this, Nat.mul_mod_mul_left]
          rw [hmod]
          rw [lor_two_pow_mul (8 - 7) _ _ (by show x / 2 ^ 7 < 2 ^ 1; omega)]
          omega
      · simp only [hj3, and_false, if_false, if_neg]
        congr 1
        interval_cases j <;> omega
    · simp only [hi1, false_and, if_neg, not_false_iff]
      have hR0 : R = 0 := by
        rw [hRdef, List.drop_eq_nil_of_le (by omega)]
        rfl
      rw [hR0]
      simp
  · have hdropnil : input.drop i = [] := List.drop_eq_nil_of_le (by omega)
    have hi1 : ¬ (i + 1 < input.length) := by omega
    simp only [hilen, hi1, false_and, if_neg, not_false_iff, if_false]
    rw [hdropnil]
    show NIX_BASE32_ALPHABET.getD (0 % 32) '0' = NIX_BASE32_ALPHABET.getD (valueLE [] / 2 ^ j % 32) '0'
    simp [valueLE]

/-- C7: the base-32 encoder satisfies the three addressing vectors
(encode of the empty input, of a zero byte, and of an 0xff byte); for an
input of n bytes the output has exactly ceil(n * 8 / 5) characters (stated
as (n * 8 + 4) / 5), each drawn from the 32-symbol alphabet
0123456789abcdfghijklmnpqrsvwxyz; and the characters are emitted most
significant 5-bit group first: the character k positions from the end of
the output encodes the 5-bit group of weight 2 ^ (k * 5) of the input's
little-endian value, so the first emitted character is the most
significant group. -/
theorem claim_C7_nix_base32_encode (input : List Nat) (h : ∀ x ∈ input, x < 256) :
    encode [] = "" ∧ encode [0] = "00" ∧ encode [255] = "7z" ∧
    (encode input).length = (input.length * 8 + 4) / 5 ∧
    (∀ ch ∈ (encode input).data, ch ∈ NIX_BASE32_ALPHABET) ∧
    encode input = String.mk ((List.range ((input.length * 8 + 4) / 5)).reverse.map
      (fun n => NIX_BASE32_ALPHABET.getD (valueLE input / 2 ^ (n * 5) % 32) '0')) := by
  have hchar : encode input = String.mk ((List.range ((input.length * 8 + 4) / 5)).reverse.map
      (fun n => NIX_BASE32_ALPHABET.getD (valueLE input / 2 ^ (n * 5) % 32) '0')) := by
    by_cases hemp : input.isEmpty
    · have : input = [] := List.isEmpty_iff.mp hemp
      subst this
      rfl
    · unfold encode
      rw [if_neg hemp]
      have hpos : 1 ≤ input.length := by
        cases input
        · simp at hemp
        · simp
      have hlen : (input.length * 8 - 1) / 5 + 1 = (input.length * 8 + 4) / 5 := by omega
      rw [hlen]
      congr 1
      apply List.map_congr_left
      intro n _
      exact encodeChar_eq_group input h n
  refine ⟨by decide, by decide, by decide, ?_, ?_, hchar⟩
  · rw [hchar]
    simp [String.length]
  · intro ch hch
    rw [hchar] at hch
    simp only [String.data] at hch
    rw [List.mem_map] at hch
    obtain ⟨n, _, hn⟩ := hch
    have hlt : valueLE input / 2 ^ (n * 5) % 32 < NIX_BASE32_ALPHABET.length := by
      have : NIX_BASE32_ALPHABET.length = 32 := by decide
      omega
    rw [← hn, List.getD_eq_getElem _ _ hlt]
    exact List.getElem_mem hlt

/-- Witness for C7 at the concrete input [1, 2]. -/
theorem claim_C7_nix_base32_encode_witness :
    (∀ x ∈ [1, 2], x < 256) ∧
    (encode [] = "" ∧ encode [0] = "00" ∧ encode [255] = "7z" ∧
    (encode [1, 2]).length = ([1, 2].length * 8 + 4) / 5 ∧
    (∀ ch ∈ (encode [1, 2]).data, ch ∈ NIX_BASE32_ALPHABET) ∧
    encode [1, 2] = String.mk ((List.range (([1, 2].length * 8 + 4) / 5)).reverse.map
      (fun n => NIX_BASE32_ALPHABET.getD (valueLE [1, 2] / 2 ^ (n * 5) % 32) '0'))) :=
  ⟨by decide, claim_C7_nix_base32_encode [1, 2] (by decide)⟩


/-! ## nar.rs: the NAR archive codec

The filesystem is modelled as a tree: a regular file carries the
executable bit, the length reported by its metadata, and the bytes
actually streamed from it (the two can disagree, which is exactly the
condition dump_path_inner checks); a directory carries its children in
filesystem enumeration order; a symlink carries its raw target bytes;
device nodes and other unsupported objects are a separate constructor.
The platform-conditional USE_CASE_HACK constant becomes the explicit
parameter uch threaded through the dump functions. -/

def strB (s : String) : List Nat := s.data.map Char.toNat

def toLE8 (n : Nat) : List Nat := (List.range 8).map (fun k => n / 2 ^ (8 * k) % 256)

def write_string (s : List Nat) : List Nat :=
  toLE8 s.length ++ s ++
    (if (8 - s.length % 8) % 8 > 0 then List.replicate ((8 - s.length % 8) % 8) 0 else [])

def write_str (s : String) : List Nat := write_string (strB s)

def encodeUnit (s : List Nat) : List Nat :=
  toLE8 s.length ++ s ++ List.replicate ((8 - s.length % 8) % 8) 0

theorem replicate_pad_eq (L : Nat) :
    (if (8 - L % 8) % 8 > 0 then List.replicate ((8 - L % 8) % 8) (0 : Nat) else []) =
      List.replicate ((8 - L % 8) % 8) 0 := by
  by_cases h : (8 - L % 8) % 8 > 0
  · rw [if_pos h]
  · rw [if_neg h]
    have h0 : (8 - L % 8) % 8 = 0 := by omega
    rw [h0, List.replicate_zero]

theorem write_string_eq_encodeUnit (s : List Nat) : write_string s = encodeUnit s := by
  unfold write_string encodeUnit
  rw [replicate_pad_eq]

inductive FSNode where
  | regular (executable : Bool) (metaLen : Nat) (contents : List Nat)
  | directory (entries : List (List Nat × FSNode))
  | symlink (target : List Nat)
  | unsupported

def byteLe : List Nat → List Nat → Bool
  | [], _ => true
  | _ :: _, [] => false
  | a :: as, b :: bs => if a < b then true else if b < a then false else byteLe as bs

theorem byteLe_total : ∀ a b : List Nat, byteLe a b = true ∨ byteLe b a = true := by
  intro a
  induction a with
  | nil => intro b; left; rfl
  | cons x xs ih =>
    intro b
    cases b with
    | nil => right; rfl
    | cons y ys =>
      by_cases hxy : x < y
      · left; simp [byteLe, hxy]
      · by_cases hyx : y < x
        · right; simp [byteLe, hyx, hxy]
        · have hxx : ¬ x < y := hxy
          rcases ih ys with h | h
          · left; simp [byteLe, hxy, hyx, h]
          · right; simp [byteLe, hxy, hyx, h]

theorem byteLe_trans : ∀ a b c : List Nat,
    byteLe a b = true → byteLe b c = true → byteLe a c = true := by
  intro a
  induction a with
  | nil => intro b c _ _; rfl
  | cons x xs ih =>
    intro b c hab hbc
    cases b with
    | nil => simp [byteLe] at hab
    | cons y ys =>
      cases c with
      | nil => simp [byteLe] at hbc
      | cons z zs =>
        simp only [byteLe] at hab hbc ⊢
        by_cases hxy : x < y
        · -- x < y; from hbc either y < z (so x < z) or y = z
          by_cases hyz : y < z
          · simp [show x < z by omega]
          · by_cases hzy : z < y
            · simp [hyz, hzy] at hbc
            · have hyzeq : y = z := by omega
              simp [show x < z by omega]
        · by_cases hyx : y < x
          · simp [hxy, hyx] at hab
          · have hxyeq : x = y := by omega
            by_cases hyz : y < z
            · simp [show x < z by omega]
            · by_cases hzy : z < y
              · simp [hyz, hzy] at hbc
              · have hyzeq : y = z := by omega
                have hxz : ¬ x < z := by omega
                have hzx : ¬ z < x := by omega
                simp [hxy, hyx] at hab
                simp [hyz, hzy] at hbc
                simp [hxz, hzx]
                exact ih ys zs hab hbc

theorem byteLe_antisymm : ∀ a b : List Nat,
    byteLe a b = true → byteLe b a = true → a = b := by
  intro a
  induction a with
  | nil =>
    intro b _ hba
    cases b with
    | nil => rfl
    | cons y ys => simp [byteLe] at hba
  | cons x xs ih =>
    intro b hab hba
    cases b with
    | nil => simp [byteLe] at hab
    | cons y ys =>
      simp only [byteLe] at hab hba
      by_cases hxy : x < y
      · simp [hxy, show ¬ y < x by omega] at hba
      · by_cases hyx : y < x
        · simp [hxy, hyx] at hab
        · have hx : x = y := by omega
          simp [hxy, hyx] at hab hba
          rw [hx, ih ys hab hba]

def entryLe (a b : List Nat × FSNode) : Prop := byteLe a.1 b.1 = true

instance : DecidableRel entryLe := fun a b => by
  unfold entryLe
  infer_instance

instance : IsTotal (List Nat × FSNode) entryLe :=
  ⟨fun a b => byteLe_total a.1 b.1⟩

instance : IsTrans (List Nat × FSNode) entryLe :=
  ⟨fun _ _ _ h1 h2 => byteLe_trans _ _ _ h1 h2⟩

def entryLt (a b : List Nat × FSNode) : Prop := byteLe a.1 b.1 = true ∧ a.1 ≠ b.1

instance : IsAntisymm (List Nat × FSNode) entryLt :=
  ⟨fun _ _ h1 h2 => absurd (byteLe_antisymm _ _ h1.1 h2.1) h1.2⟩

def sortEntries (entries : List (List Nat × FSNode)) : List (List Nat × FSNode) :=
  List.insertionSort entryLe entries

theorem sizeOf_perm_entries {l1 l2 : List (List Nat × FSNode)} (h : l1.Perm l2) :
    sizeOf l1 = sizeOf l2 := by
  induction h with
  | nil => rfl
  | cons x _ ih => simp [List.cons.sizeOf_spec, ih]
  | swap x y l => simp [List.cons.sizeOf_spec]; omega
  | trans _ _ ih1 ih2 => omega

theorem sizeOf_sortEntries (entries : List (List Nat × FSNode)) :
    sizeOf (sortEntries entries) = sizeOf entries :=
  sizeOf_perm_entries (List.perm_insertionSort _ _)

theorem sortEntries_eq_of_perm (e1 e2 : List (List Nat × FSNode)) (hp : e1.Perm e2)
    (hnd : (e1.map Prod.fst).Nodup) : sortEntries e1 = sortEntries e2 := by
  have hs1 : List.Sorted entryLe (sortEntries e1) := List.sorted_insertionSort entryLe e1
  have hs2 : List.Sorted entryLe (sortEntries e2) := List.sorted_insertionSort entryLe e2
  have hp1 : (sortEntries e1).Perm e1 := List.perm_insertionSort _ _
  have hp2 : (sortEntries e2).Perm e2 := List.perm_insertionSort _ _
  have hp12 : (sortEntries e1).Perm (sortEntries e2) :=
    ((hp1.trans hp).trans hp2.symm)
  have hnd1 : ((sortEntries e1).map Prod.fst).Nodup := (hp1.map Prod.fst).nodup_iff.mpr hnd
  have hnd2 : ((sortEntries e2).map Prod.fst).Nodup :=
    ((hp12.map Prod.fst).nodup_iff.mp hnd1)
  have hlt1 : List.Sorted entryLt (sortEntries e1) := by
    have hne : List.Pairwise (fun a b : List Nat × FSNode => a.1 ≠ b.1) (sortEntries e1) :=
      List.pairwise_map.mp hnd1
    exact (hs1.and hne)
  have hlt2 : List.Sorted entryLt (sortEntries e2) := by
    have hne : List.Pairwise (fun a b : List Nat × FSNode => a.1 ≠ b.1) (sortEntries e2) :=
      List.pairwise_map.mp hnd2
    exact (hs2.and hne)
  exact List.eq_of_perm_of_sorted hp12 hlt1 hlt2

def NAR_VERSION_MAGIC_1 : String := "nix-archive-1"

def CASE_HACK_SUFFIX : List Nat := strB "~nix~case~hack~"

def findCaseHack (name : List Nat) : Option Nat :=
  (List.range (name.length + 1 - CASE_HACK_SUFFIX.length)).find?
    (fun p => (name.drop p).take CASE_HACK_SUFFIX.length == CASE_HACK_SUFFIX)

def strip_case_hack_suffix (useCaseHack : Bool) (name : List Nat) : List Nat :=
  if !useCaseHack then name
  else
    match findCaseHack name with
    | some pos => name.take pos
    | none => name

mutual

def dump_path_inner (uch : Bool) : FSNode → Except String (List Nat)
  | .regular ex metaLen contents =>
      if contents.length ≠ metaLen then Except.error "File size mismatch"
      else Except.ok (write_str "type" ++ write_str "regular" ++
        (if ex then write_str "executable" ++ write_str "" else []) ++
        write_str "contents" ++ toLE8 metaLen ++ contents ++
        (if (8 - metaLen % 8) % 8 > 0 then List.replicate ((8 - metaLen % 8) % 8) 0 else []))
  | .directory entries =>
      match dump_entries uch (sortEntries entries) with
      | Except.error e => Except.error e
      | Except.ok body => Except.ok (write_str "type" ++ write_str "directory" ++ body)
  | .symlink target =>
      Except.ok (write_str "type" ++ write_str "symlink" ++ write_str "target" ++
        write_string target)
  | .unsupported => Except.error "Unsupported file type"
termination_by n => sizeOf n
decreasing_by
  simp [FSNode.directory.sizeOf_spec, sizeOf_sortEntries]

def dump_entries (uch : Bool) : List (List Nat × FSNode) → Except String (List Nat)
  | [] => Except.ok []
  | (name, child) :: rest =>
      match dump_path_inner uch child with
      | Except.error e => Except.error e
      | Except.ok inner =>
        match dump_entries uch rest with
        | Except.error e => Except.error e
        | Except.ok restOut =>
            Except.ok (write_str "entry" ++ write_str "(" ++ write_str "name" ++
              write_string (strip_case_hack_suffix uch name) ++ write_str "node" ++
              write_str "(" ++ inner ++ write_str ")" ++ write_str ")" ++ restOut)
termination_by es => sizeOf es
decreasing_by
  all_goals simp [List.cons.sizeOf_spec]
  all_goals omega

end

def dump_path (uch : Bool) (root : FSNode) : Except String (List Nat) :=
  match dump_path_inner uch root with
  | Except.error e => Except.error e
  | Except.ok inner =>
      Except.ok (write_str NAR_VERSION_MAGIC_1 ++ write_str "(" ++ inner ++ write_str ")")

mutual

def dump_path_inner_units (uch : Bool) : FSNode → Except String (List (List Nat))
  | .regular ex metaLen contents =>
      if contents.length ≠ metaLen then Except.error "File size mismatch"
      else Except.ok ([strB "type", strB "regular"] ++
        (if ex then [strB "executable", strB ""] else []) ++
        [strB "contents", contents])
  | .directory entries =>
      match dump_entries_units uch (sortEntries entries) with
      | Except.error e => Except.error e
      | Except.ok body => Except.ok ([strB "type", strB "directory"] ++ body)
  | .symlink target => Except.ok [strB "type", strB "symlink", strB "target", target]
  | .unsupported => Except.error "Unsupported file type"
termination_by n => sizeOf n
decreasing_by
  simp [FSNode.directory.sizeOf_spec, sizeOf_sortEntries]

def dump_entries_units (uch : Bool) : List (List Nat × FSNode) → Except String (List (List Nat))
  | [] => Except.ok []
  | (name, child) :: rest =>
      match dump_path_inner_units uch child with
      | Except.error e => Except.error e
      | Except.ok inner =>
        match dump_entries_units uch rest with
        | Except.error e => Except.error e
        | Except.ok restOut =>
            Except.ok ([strB "entry", strB "(", strB "name",
              strip_case_hack_suffix uch name, strB "node", strB "("] ++ inner ++
              [strB ")", strB ")"] ++ restOut)
termination_by es => sizeOf es
decreasing_by
  all_goals simp [List.cons.sizeOf_spec]
  all_goals omega

end

def dump_path_units (uch : Bool) (root : FSNode) : Except String (List (List Nat)) :=
  match dump_path_inner_units uch root with
  | Except.error e => Except.error e
  | Except.ok inner => Except.ok ([strB NAR_VERSION_MAGIC_1, strB "("] ++ inner ++ [strB ")"])

def unitsBytes (us : List (List Nat)) : List Nat := (us.map encodeUnit).flatten

mutual

theorem dump_path_inner_eq_units (uch : Bool) (n : FSNode) :
    dump_path_inner uch n = Except.map unitsBytes (dump_path_inner_units uch n) := by
  cases n with
  | regular ex metaLen contents =>
    simp only [dump_path_inner, dump_path_inner_units]
    by_cases hlen : contents.length ≠ metaLen
    · simp [hlen, Except.map]
    · have heq : contents.length = metaLen := by omega
      subst heq
      simp only [hlen, if_neg, not_false_iff, Except.map]
      cases ex <;>
        simp [unitsBytes, write_str, write_string_eq_encodeUnit, encodeUnit,
          replicate_pad_eq, List.append_assoc]
  | directory entries =>
    simp only [dump_path_inner, dump_path_inner_units]
    rw [dump_entries_eq_units uch (sortEntries entries)]
    cases h : dump_entries_units uch (sortEntries entries) with
    | error e => simp [Except.map]
    | ok body =>
      simp [Except.map, unitsBytes, write_str, write_string_eq_encodeUnit,
        List.append_assoc]
  | symlink target =>
    simp only [dump_path_inner, dump_path_inner_units]
    simp [Except.map, unitsBytes, write_str, write_string_eq_encodeUnit,
      write_string_eq_encodeUnit, List.append_assoc]
  | unsupported =>
    simp only [dump_path_inner, dump_path_inner_units]
    rfl
termination_by sizeOf n
decreasing_by
  simp [FSNode.directory.sizeOf_spec, sizeOf_sortEntries]

theorem dump_entries_eq_units (uch : Bool) (es : List (List Nat × FSNode)) :
    dump_entries uch es = Except.map unitsBytes (dump_entries_units uch es) := by
  cases es with
  | nil =>
    simp only [dump_entries, dump_entries_units]
    rfl
  | cons hd rest =>
    obtain ⟨name, child⟩ := hd
    simp only [dump_entries, dump_entries_units]
    rw [dump_path_inner_eq_units uch child, dump_entries_eq_units uch rest]
    cases h1 : dump_path_inner_units uch child with
    | error e => simp [Except.map]
    | ok inner =>
      cases h2 : dump_entries_units uch rest with
      | error e => simp [Except.map]
      | ok restOut =>
        simp [Except.map, unitsBytes, write_str, write_string_eq_encodeUnit,
          List.append_assoc]
termination_by sizeOf es
decreasing_by
  all_goals simp [List.cons.sizeOf_spec]
  all_goals omega

end

/-- C6: every length-prefixed unit the archive codec emits (structural
tokens, names, symlink targets, and streamed file contents) of byte-length
L is emitted as exactly the 8-byte little-endian encoding of L, the L raw
bytes, then exactly (8 - L mod 8) mod 8 zero bytes, for all L: the whole
archive produced by dump_path is the concatenation of the unit list
dump_path_units under that encoding. -/
theorem claim_C6_length_prefixed_units (uch : Bool) (root : FSNode) :
    dump_path uch root = Except.map
      (fun us => (us.map
        (fun s => toLE8 s.length ++ s ++ List.replicate ((8 - s.length % 8) % 8) 0)).flatten)
      (dump_path_units uch root) := by
  show dump_path uch root = Except.map unitsBytes (dump_path_units uch root)
  unfold dump_path dump_path_units
  rw [dump_path_inner_eq_units uch root]
  cases h : dump_path_inner_units uch root with
  | error e => simp [Except.map]
  | ok inner =>
    simp [Except.map, unitsBytes, write_str, write_string_eq_encodeUnit, List.append_assoc]

/-- C5: when archiving a regular file, the declared 8-byte little-endian
length written before the contents is toLE8 of the size taken from
metadata, and archiving succeeds exactly when the number of bytes actually
streamed equals that declared length; a mismatch yields the File size
mismatch error, never a silently accepted archive. -/
theorem claim_C5_regular_file_integrity (uch : Bool) (ex : Bool) (metaLen : Nat) (contents : List Nat) :
    ((∃ out, dump_path_inner uch (FSNode.regular ex metaLen contents) = Except.ok out) ↔
      contents.length = metaLen) ∧
    (contents.length = metaLen →
      dump_path_inner uch (FSNode.regular ex metaLen contents) =
        Except.ok (write_str "type" ++ write_str "regular" ++
          (if ex then write_str "executable" ++ write_str "" else []) ++
          write_str "contents" ++ toLE8 metaLen ++ contents ++
          List.replicate ((8 - metaLen % 8) % 8) 0)) ∧
    (contents.length ≠ metaLen →
      dump_path_inner uch (FSNode.regular ex metaLen contents) =
        Except.error "File size mismatch") := by
  have himp : contents.length = metaLen →
      dump_path_inner uch (FSNode.regular ex metaLen contents) =
        Except.ok (write_str "type" ++ write_str "regular" ++
          (if ex then write_str "executable" ++ write_str "" else []) ++
          write_str "contents" ++ toLE8 metaLen ++ contents ++
          List.replicate ((8 - metaLen % 8) % 8) 0) := by
    intro heq
    simp only [dump_path_inner]
    rw [if_neg (by omega), replicate_pad_eq]
  refine ⟨⟨?_, fun heq => ⟨_, himp heq⟩⟩, himp, ?_⟩
  · rintro ⟨out, hout⟩
    by_contra hne
    simp only [dump_path_inner, if_pos hne] at hout
    exact Except.noConfusion hout
  · intro hne
    simp only [dump_path_inner, if_pos hne]

theorem claim_C5_regular_file_integrity_witness :
    ([7, 8, 9] : List Nat).length = 3 ∧
    dump_path_inner false (FSNode.regular false 3 [7, 8, 9]) =
      Except.ok (write_str "type" ++ write_str "regular" ++
        (if false then write_str "executable" ++ write_str "" else []) ++
        write_str "contents" ++ toLE8 3 ++ [7, 8, 9] ++
        List.replicate ((8 - 3 % 8) % 8) 0) :=
  ⟨by decide, (claim_C5_regular_file_integrity false false 3 [7, 8, 9]).2.1 (by decide)⟩

/-- C8: for every directory archived, the entry blocks appear in the
output ordered by raw byte value of the entries filenames regardless of
filesystem enumeration order: dumping any permutation of the entry list
(with distinct filenames, as on a real filesystem) yields identical bytes,
the sorted entry list is pairwise byteLe-ordered by name, and the
directory output is exactly the blocks of that sorted list in order. -/
theorem claim_C8_sorted_directory_entries (uch : Bool) (e1 e2 : List (List Nat × FSNode))
    (hp : e1.Perm e2) (hnd : (e1.map Prod.fst).Nodup) :
    dump_path uch (FSNode.directory e1) = dump_path uch (FSNode.directory e2) ∧
    List.Pairwise (fun a b => byteLe a b = true) ((sortEntries e1).map Prod.fst) ∧
    dump_path_inner uch (FSNode.directory e1) =
      (match dump_entries uch (sortEntries e1) with
       | Except.error e => Except.error e
       | Except.ok body => Except.ok (write_str "type" ++ write_str "directory" ++ body)) := by
  have hsort : sortEntries e1 = sortEntries e2 := sortEntries_eq_of_perm e1 e2 hp hnd
  refine ⟨?_, ?_, ?_⟩
  · unfold dump_path
    have hinner : dump_path_inner uch (FSNode.directory e1) =
        dump_path_inner uch (FSNode.directory e2) := by
      simp only [dump_path_inner, hsort]
    rw [hinner]
  · have hs : List.Sorted entryLe (sortEntries e1) := List.sorted_insertionSort entryLe e1
    exact List.pairwise_map.mpr hs
  · simp only [dump_path_inner]

theorem claim_C8_sorted_directory_entries_witness :
    ([([98], FSNode.symlink [1]), ([97], FSNode.regular false 0 [])] : List (List Nat × FSNode)).Perm
      [([97], FSNode.regular false 0 []), ([98], FSNode.symlink [1])] ∧
    (([([98], FSNode.symlink [1]), ([97], FSNode.regular false 0 [])] : List (List Nat × FSNode)).map
      Prod.fst).Nodup ∧
    (dump_path false (FSNode.directory [([98], FSNode.symlink [1]), ([97], FSNode.regular false 0 [])]) =
      dump_path false (FSNode.directory [([97], FSNode.regular false 0 []), ([98], FSNode.symlink [1])]) ∧
    List.Pairwise (fun a b => byteLe a b = true)
      ((sortEntries [([98], FSNode.symlink [1]), ([97], FSNode.regular false 0 [])]).map Prod.fst) ∧
    dump_path_inner false (FSNode.directory [([98], FSNode.symlink [1]), ([97], FSNode.regular false 0 [])]) =
      (match dump_entries false (sortEntries [([98], FSNode.symlink [1]), ([97], FSNode.regular false 0 [])]) with
       | Except.error e => Except.error e
       | Except.ok body => Except.ok (write_str "type" ++ write_str "directory" ++ body))) :=
  ⟨List.Perm.swap _ _ _, by decide,
    claim_C8_sorted_directory_entries false _ _ (List.Perm.swap _ _ _) (by decide)⟩



/-! ## nix_store.rs and main.rs: the push pipeline

Rust String operations are embedded over the underlying character lists
(splitOnChar embeds str::split, list isPrefixOf / isSuffixOf embed
starts_with / ends_with / strip_prefix / strip_suffix).  HashMap values
iterated by the Rust code become association lists in iteration order.
The three external effects of a push run - compressing a store path to a
staged artifact, PUTting bytes to a presigned URL, and POSTing the
complete call - are oracles (compress, uploadOk, completeOk) supplied to
the embedded pipeline, which records the calls it makes as a trace of
Event values in program order.  push_command models the part of the Rust
push_command after negotiation: create_pending_closures is a server
round-trip, so its results (the merged pending-object map and the list of
transaction ids) are inputs here. -/

def splitOnChar (c : Char) : List Char → List (List Char)
  | [] => [[]]
  | x :: xs =>
      let r := splitOnChar c xs
      if x = c then [] :: r
      else
        match r with
        | [] => [[x]]
        | h :: t => (x :: h) :: t

def get_store_path_hash (store_path : String) : Except String String :=
  match ((splitOnChar '/' store_path.data).filter (fun comp => !comp.isEmpty)).getLast? with
  | none => Except.error "Invalid store path"
  | some file_name => Except.ok (String.mk ((splitOnChar '-' file_name).headD []))

deriving instance DecidableEq for Except

example : get_store_path_hash "/nix/store/abc123def456-hello-world-1.0" =
    Except.ok "abc123def456" := by decide

structure NixPathInfo where
  path : String
  nar_hash : String
  nar_size : Nat
  references : List String
  deriver : Option String
  signatures : Option (List String)
  ca : Option String
deriving DecidableEq

structure ObjectWithRefs where
  key : String
  refs : List String
deriving DecidableEq

structure PendingObject where
  presigned_url : String
deriving DecidableEq

structure PreparedClosures where
  closures : List (String × List ObjectWithRefs)
  path_info_by_hash : List (String × String × NixPathInfo)
deriving DecidableEq

def prepare_closures : List (String × NixPathInfo) → Except String PreparedClosures
  | [] => Except.ok ⟨[], []⟩
  | (store_path, path_info) :: rest =>
    match get_store_path_hash store_path with
    | Except.error e => Except.error e
    | Except.ok hash =>
      match path_info.references.mapM get_store_path_hash with
      | Except.error e => Except.error e
      | Except.ok references =>
        match prepare_closures rest with
        | Except.error e => Except.error e
        | Except.ok prepared =>
          Except.ok ⟨(hash ++ ".narinfo",
              [⟨hash ++ ".narinfo", references ++ ["nar/" ++ hash ++ ".nar.zst"]⟩,
               ⟨"nar/" ++ hash ++ ".nar.zst", []⟩]) :: prepared.closures,
            (hash, store_path, path_info) :: prepared.path_info_by_hash⟩

def stripStoreDir (r : String) : String :=
  if "/nix/store/".data.isPrefixOf r.data then String.mk (r.data.drop "/nix/store/".data.length)
  else r

def refsPart : List String → String
  | [] => ""
  | r :: rs => " " ++ stripStoreDir r ++ refsPart rs

def sigsPart : List String → String
  | [] => ""
  | s :: rest => "Sig: " ++ s ++ "\n" ++ sigsPart rest

def create_narinfo (path_info : NixPathInfo) (nar_filename : String)
    (compressed_size : Nat) (file_hash : String) : String :=
  "StorePath: " ++ path_info.path ++ "\n" ++
  "URL: nar/" ++ nar_filename ++ "\n" ++
  "Compression: zstd" ++ "\n" ++
  "NarHash: " ++ path_info.nar_hash ++ "\n" ++
  "NarSize: " ++ toString path_info.nar_size ++ "\n" ++
  "FileHash: " ++ file_hash ++ "\n" ++
  "FileSize: " ++ toString compressed_size ++ "\n" ++
  "References:" ++ refsPart path_info.references ++ "\n" ++
  (match path_info.deriver with
   | some d => "Deriver: " ++ stripStoreDir d ++ "\n"
   | none => "") ++
  (match path_info.signatures with
   | some sigs => sigsPart sigs
   | none => "") ++
  (match path_info.ca with
   | some ca => "CA: " ++ ca ++ "\n"
   | none => "")

def sampleInfo : NixPathInfo :=
  ⟨"/nix/store/aaa-a", "sha256:nh", 100, [], none, none, none⟩

example : create_narinfo sampleInfo "aaa.nar.zst" 0 "" =
    "StorePath: /nix/store/aaa-a\nURL: nar/aaa.nar.zst\nCompression: zstd\nNarHash: sha256:nh\nNarSize: 100\nFileHash: \nFileSize: 0\nReferences:\n" := by
  decide

def stripPrefixOpt (p s : String) : Option String :=
  if p.data.isPrefixOf s.data then some (String.mk (s.data.drop p.data.length)) else none

def stripSuffixOpt (suf s : String) : Option String :=
  if suf.data.isSuffixOf s.data then
    some (String.mk (s.data.take (s.data.length - suf.data.length)))
  else none

example : stripPrefixOpt "nar/" "nar/aaa.nar.zst" = some "aaa.nar.zst" := by decide
example : stripSuffixOpt ".nar.zst" "aaa.nar.zst" = some "aaa" := by decide
example : stripSuffixOpt ".narinfo" "aaa.narinfo" = some "aaa" := by decide
example : stripSuffixOpt ".narinfo" "aaa.nar" = none := by decide

inductive Event where
  | uploadNar (key : String) (ok : Bool)
  | uploadNarinfo (key : String) (content : String) (ok : Bool)
  | complete (id : String) (ok : Bool)
deriving DecidableEq

def Event.isUpload : Event → Bool
  | .uploadNar _ _ => true
  | .uploadNarinfo _ _ _ => true
  | .complete _ _ => false

def Event.succeeded : Event → Bool
  | .uploadNar _ ok => ok
  | .uploadNarinfo _ _ ok => ok
  | .complete _ ok => ok

def Event.isCompleteCall : Event → Bool
  | .uploadNar _ _ => false
  | .uploadNarinfo _ _ _ => false
  | .complete _ _ => true

def nar_upload_matches (path_info_by_hash : List (String × String × NixPathInfo))
    (object_key : String) : Option (String × String) :=
  match stripPrefixOpt "nar/" object_key with
  | none => none
  | some nar_name =>
    match stripSuffixOpt ".nar.zst" nar_name with
    | none => none
    | some hash =>
      match path_info_by_hash.lookup hash with
      | none => none
      | some (store_path, _) => some (store_path, hash)

def collectResults {α : Type} : List (Except String α) → Except String (List α)
  | [] => Except.ok []
  | Except.error e :: _ => Except.error e
  | Except.ok a :: rest =>
    match collectResults rest with
    | Except.error e => Except.error e
    | Except.ok l => Except.ok (a :: l)

def nar_compression_data (nar_uploads : List (String × PendingObject))
    (path_info_by_hash : List (String × String × NixPathInfo)) :
    List (String × PendingObject × String × String) :=
  nar_uploads.filterMap (fun u =>
    (nar_upload_matches path_info_by_hash u.1).map (fun m => (u.1, u.2, m.1, m.2)))

def nar_compression_results (compress : String → Except String (Nat × String))
    (nar_uploads : List (String × PendingObject))
    (path_info_by_hash : List (String × String × NixPathInfo)) :
    List (Except String ((Nat × String) × String × PendingObject × String)) :=
  (nar_compression_data nar_uploads path_info_by_hash).map (fun d =>
    match compress d.2.2.1 with
    | Except.error e => Except.error e
    | Except.ok szh => Except.ok (szh, d.1, d.2.1, d.2.2.2))

def nar_upload_outcomes (uploadOk : String → Bool)
    (results : List (Except String ((Nat × String) × String × PendingObject × String))) :
    List (Option Event × Except String (String × Nat × String)) :=
  results.map (fun r =>
    match r with
    | Except.error e =>
        ((none : Option Event), (Except.error e : Except String (String × Nat × String)))
    | Except.ok (szh, key, _po, hash) =>
        (some (Event.uploadNar key (uploadOk key)),
          if uploadOk key then Except.ok (hash, szh.1, szh.2)
          else Except.error ("Failed to upload compressed file for " ++ key)))

def upload_nars (compress : String → Except String (Nat × String)) (uploadOk : String → Bool)
    (nar_uploads : List (String × PendingObject))
    (path_info_by_hash : List (String × String × NixPathInfo)) :
    List Event × Except String (List (String × Nat × String)) :=
  let upload_outcomes :=
    nar_upload_outcomes uploadOk (nar_compression_results compress nar_uploads path_info_by_hash)
  (upload_outcomes.filterMap Prod.fst,
    match collectResults (upload_outcomes.map Prod.snd) with
    | Except.error e => Except.error e
    | Except.ok lst => Except.ok (lst.filter (fun p => !(p.1 == ""))))

def narinfo_outcome (uploadOk : String → Bool)
    (path_info_by_hash : List (String × String × NixPathInfo))
    (compressed_info : List (String × Nat × String)) (u : String × PendingObject) :
    Option Event × Except String Unit :=
  match stripSuffixOpt ".narinfo" u.1 with
  | none => ((none : Option Event), (Except.ok () : Except String Unit))
  | some hash =>
    match path_info_by_hash.lookup hash with
    | none => (none, Except.ok ())
    | some (_store_path, path_info) =>
      let cs := (compressed_info.lookup hash).getD (0, "")
      let content := create_narinfo path_info (hash ++ ".nar.zst") cs.1 cs.2
      (some (Event.uploadNarinfo u.1 content (uploadOk u.1)),
        if uploadOk u.1 then Except.ok ()
        else Except.error ("Failed to upload " ++ u.1))

def upload_narinfos (uploadOk : String → Bool)
    (narinfo_uploads : List (String × PendingObject))
    (path_info_by_hash : List (String × String × NixPathInfo))
    (compressed_info : List (String × Nat × String)) :
    List Event × Except String Unit :=
  let outcomes :=
    narinfo_uploads.map (narinfo_outcome uploadOk path_info_by_hash compressed_info)
  (outcomes.filterMap Prod.fst,
    match collectResults (outcomes.map Prod.snd) with
    | Except.error e => Except.error e
    | Except.ok _ => Except.ok ())

def narinfo_uploads_of (pending_objects : List (String × PendingObject)) :
    List (String × PendingObject) :=
  pending_objects.filter (fun p => ".narinfo".data.isSuffixOf p.1.data)

def nar_uploads_of (pending_objects : List (String × PendingObject)) :
    List (String × PendingObject) :=
  pending_objects.filter (fun p =>
    !(".narinfo".data.isSuffixOf p.1.data) && "nar/".data.isPrefixOf p.1.data)

def upload_pending_objects (compress : String → Except String (Nat × String))
    (uploadOk : String → Bool) (pending_objects : List (String × PendingObject))
    (path_info_by_hash : List (String × String × NixPathInfo)) :
    List Event × Except String Unit :=
  let nres := upload_nars compress uploadOk (nar_uploads_of pending_objects) path_info_by_hash
  match nres.2 with
  | Except.error e => (nres.1, Except.error e)
  | Except.ok compressed_info =>
    let ires := upload_narinfos uploadOk (narinfo_uploads_of pending_objects)
      path_info_by_hash compressed_info
    (nres.1 ++ ires.1, ires.2)

def complete_closures (completeOk : String → Bool) : List String → List Event × Except String Unit
  | [] => ([], Except.ok ())
  | id :: rest =>
    if completeOk id then
      let r := complete_closures completeOk rest
      (Event.complete id true :: r.1, r.2)
    else ([Event.complete id false], Except.error ("Failed to complete pending closure " ++ id))

def push_command (compress : String → Except String (Nat × String))
    (uploadOk : String → Bool) (completeOk : String → Bool)
    (pending_objects : List (String × PendingObject))
    (path_info_by_hash : List (String × String × NixPathInfo))
    (pending_ids : List String) : List Event × Except String Unit :=
  let ures := upload_pending_objects compress uploadOk pending_objects path_info_by_hash
  match ures.2 with
  | Except.error e => (ures.1, Except.error e)
  | Except.ok _ =>
    let cres := complete_closures completeOk pending_ids
    (ures.1 ++ cres.1, cres.2)

-- quick evaluation sanity checks
example :
    push_command (fun _ => Except.ok (7, "ch")) (fun _ => true) (fun _ => true)
      [("nar/aaa.nar.zst", ⟨"u1"⟩), ("aaa.narinfo", ⟨"u2"⟩)]
      [("aaa", "/nix/store/aaa-a", sampleInfo)] ["t1"] =
    ([Event.uploadNar "nar/aaa.nar.zst" true,
      Event.uploadNarinfo "aaa.narinfo"
        (create_narinfo sampleInfo "aaa.nar.zst" 7 "ch") true,
      Event.complete "t1" true], Except.ok ()) := by decide

theorem collectResults_ok_mem {α : Type} {l : List (Except String α)} {v : List α}
    (h : collectResults l = Except.ok v) : ∀ x ∈ l, ∃ a, x = Except.ok a := by
  induction l generalizing v with
  | nil => intro x hx; cases hx
  | cons hd tl ih =>
    cases hd with
    | error e => simp [collectResults] at h
    | ok a =>
      intro x hx
      simp only [collectResults] at h
      cases hcr : collectResults tl with
      | error e =>
        rw [hcr] at h
        exact Except.noConfusion h
      | ok l2 =>
        rcases List.mem_cons.mp hx with rfl | hx2
        · exact ⟨a, rfl⟩
        · exact ih hcr x hx2

theorem collectResults_error_of_mem {α : Type} {l : List (Except String α)} {e : String}
    (h : Except.error e ∈ l) : ∃ msg, collectResults l = Except.error msg := by
  induction l with
  | nil => cases h
  | cons hd tl ih =>
    rcases List.mem_cons.mp h with rfl | htl
    · exact ⟨e, rfl⟩
    · cases hd with
      | error e2 => exact ⟨e2, rfl⟩
      | ok a =>
        obtain ⟨msg, hmsg⟩ := ih htl
        refine ⟨msg, ?_⟩
        simp only [collectResults, hmsg]

theorem collectResults_ok_of_all {α : Type} {l : List (Except String α)}
    (h : ∀ x ∈ l, ∃ a, x = Except.ok a) : ∃ v, collectResults l = Except.ok v := by
  induction l with
  | nil => exact ⟨[], rfl⟩
  | cons hd tl ih =>
    obtain ⟨a, ha⟩ := h hd (List.mem_cons_self hd tl)
    subst ha
    obtain ⟨v, hv⟩ := ih (fun x hx => h x (List.mem_cons_of_mem _ hx))
    exact ⟨a :: v, by simp only [collectResults, hv]⟩

/-- Every event produced by upload_nars is an archive upload event for a key
that matched the nar key pattern, with success given by the upload oracle. -/
theorem upload_nars_events (compress : String → Except String (Nat × String))
    (uploadOk : String → Bool) (nar_uploads : List (String × PendingObject))
    (path_info_by_hash : List (String × String × NixPathInfo)) :
    ∀ e ∈ (upload_nars compress uploadOk nar_uploads path_info_by_hash).1,
      ∃ key, e = Event.uploadNar key (uploadOk key) ∧
        (nar_upload_matches path_info_by_hash key).isSome := by
  intro e he
  simp only [upload_nars] at he
  rw [List.mem_filterMap] at he
  obtain ⟨o, ho, hfst⟩ := he
  simp only [nar_upload_outcomes] at ho
  rw [List.mem_map] at ho
  obtain ⟨r, hr, hor⟩ := ho
  simp only [nar_compression_results] at hr
  rw [List.mem_map] at hr
  obtain ⟨d, hd, hrd⟩ := hr
  simp only [nar_compression_data] at hd
  rw [List.mem_filterMap] at hd
  obtain ⟨u, _, hu⟩ := hd
  rw [Option.map_eq_some'] at hu
  obtain ⟨m, hm, hum⟩ := hu
  cases hc : compress d.2.2.1 with
  | error err =>
    rw [← hor, ← hrd, hc] at hfst
    exact Option.noConfusion hfst
  | ok szh =>
    rw [← hor, ← hrd, hc] at hfst
    simp only at hfst
    refine ⟨d.1, ?_, ?_⟩
    · exact (Option.some_inj.mp hfst).symm
    · subst hum
      simp only at *
      rw [hm]
      rfl

/-- If upload_nars returns success, every event it recorded was a successful
upload (buffer collection happened, then every collected result was checked). -/
theorem upload_nars_ok_all_succeeded (compress : String → Except String (Nat × String))
    (uploadOk : String → Bool) (nar_uploads : List (String × PendingObject))
    (path_info_by_hash : List (String × String × NixPathInfo))
    (hok : ∃ v, (upload_nars compress uploadOk nar_uploads path_info_by_hash).2 = Except.ok v) :
    ∀ e ∈ (upload_nars compress uploadOk nar_uploads path_info_by_hash).1,
      e.succeeded = true := by
  intro e he
  obtain ⟨v, hv⟩ := hok
  simp only [upload_nars] at he hv
  rw [List.mem_filterMap] at he
  obtain ⟨o, ho, hfst⟩ := he
  have hcoll : ∃ lst, collectResults ((nar_upload_outcomes uploadOk
      (nar_compression_results compress nar_uploads path_info_by_hash)).map Prod.snd) =
      Except.ok lst := by
    cases hc : collectResults ((nar_upload_outcomes uploadOk
        (nar_compression_results compress nar_uploads path_info_by_hash)).map Prod.snd) with
    | error e2 =>
      rw [hc] at hv
      exact Except.noConfusion hv
    | ok lst => exact ⟨lst, rfl⟩
  obtain ⟨lst, hlst⟩ := hcoll
  have hall := collectResults_ok_mem hlst
  have hsnd : ∃ a, o.2 = Except.ok a :=
    hall o.2 (List.mem_map_of_mem Prod.snd ho)
  simp only [nar_upload_outcomes] at ho
  rw [List.mem_map] at ho
  obtain ⟨r, _, hor⟩ := ho
  cases r with
  | error err =>
    rw [← hor] at hfst
    exact Option.noConfusion hfst
  | ok val =>
    obtain ⟨szh, key, po, hash⟩ := val
    rw [← hor] at hfst hsnd
    simp only at hfst hsnd
    by_cases hup : uploadOk key = true
    · rw [← Option.some_inj.mp hfst]
      simp [Event.succeeded, hup]
    · obtain ⟨a, ha⟩ := hsnd
      rw [if_neg hup] at ha
      exact Except.noConfusion ha

/-- If some event recorded by upload_nars is a failed upload, upload_nars
returns an error. -/
theorem upload_nars_error_of_failed (compress : String → Except String (Nat × String))
    (uploadOk : String → Bool) (nar_uploads : List (String × PendingObject))
    (path_info_by_hash : List (String × String × NixPathInfo)) (e : Event)
    (he : e ∈ (upload_nars compress uploadOk nar_uploads path_info_by_hash).1)
    (hf : e.succeeded = false) :
    ∃ msg, (upload_nars compress uploadOk nar_uploads path_info_by_hash).2 =
      Except.error msg := by
  simp only [upload_nars] at he ⊢
  rw [List.mem_filterMap] at he
  obtain ⟨o, ho, hfst⟩ := he
  have hoerr : ∃ msg0, o.2 = Except.error msg0 := by
    simp only [nar_upload_outcomes] at ho
    rw [List.mem_map] at ho
    obtain ⟨r, _, hor⟩ := ho
    cases r with
    | error err =>
      rw [← hor] at hfst
      exact Option.noConfusion hfst
    | ok val =>
      obtain ⟨szh, key, po, hash⟩ := val
      rw [← hor] at hfst ⊢
      simp only at hfst ⊢
      have he2 : e = Event.uploadNar key (uploadOk key) := (Option.some_inj.mp hfst).symm
      rw [he2] at hf
      simp only [Event.succeeded] at hf
      rw [if_neg (by rw [hf]; exact Bool.false_ne_true)]
      exact ⟨_, rfl⟩
  obtain ⟨msg0, hmsg0⟩ := hoerr
  have hmem : Except.error msg0 ∈ ((nar_upload_outcomes uploadOk
      (nar_compression_results compress nar_uploads path_info_by_hash)).map Prod.snd) := by
    rw [← hmsg0]
    exact List.mem_map_of_mem Prod.snd ho
  obtain ⟨msg, hmsg⟩ := collectResults_error_of_mem hmem
  rw [hmsg]
  exact ⟨msg, rfl⟩

/-- Every event produced by upload_narinfos is a narinfo upload event for a
pending key whose hash (after stripping .narinfo) resolves in the path-info
map, with the content rendered via create_narinfo from the compressed-info
entry for that hash (or the (0, empty) fallback). -/
theorem upload_narinfos_events (uploadOk : String → Bool)
    (narinfo_uploads : List (String × PendingObject))
    (path_info_by_hash : List (String × String × NixPathInfo))
    (compressed_info : List (String × Nat × String)) :
    ∀ e ∈ (upload_narinfos uploadOk narinfo_uploads path_info_by_hash compressed_info).1,
      ∃ key hash store_path path_info,
        stripSuffixOpt ".narinfo" key = some hash ∧
        path_info_by_hash.lookup hash = some (store_path, path_info) ∧
        e = Event.uploadNarinfo key
          (create_narinfo path_info (hash ++ ".nar.zst")
            ((compressed_info.lookup hash).getD (0, "")).1
            ((compressed_info.lookup hash).getD (0, "")).2)
          (uploadOk key) := by
  intro e he
  simp only [upload_narinfos] at he
  rw [List.mem_filterMap] at he
  obtain ⟨o, ho, hfst⟩ := he
  rw [List.mem_map] at ho
  obtain ⟨u, _, hou⟩ := ho
  rw [← hou] at hfst
  unfold narinfo_outcome at hfst
  cases hsuf : stripSuffixOpt ".narinfo" u.1 with
  | none =>
    simp only [hsuf] at hfst
    exact Option.noConfusion hfst
  | some hash =>
    simp only [hsuf] at hfst
    cases hlook : path_info_by_hash.lookup hash with
    | none =>
      simp only [hlook] at hfst
      exact Option.noConfusion hfst
    | some sp_info =>
      obtain ⟨store_path, path_info⟩ := sp_info
      simp only [hlook] at hfst
      exact ⟨u.1, hash, store_path, path_info, hsuf, hlook, (Option.some_inj.mp hfst).symm⟩

/-- If upload_narinfos returns success, every event it recorded succeeded. -/
theorem upload_narinfos_ok_all_succeeded (uploadOk : String → Bool)
    (narinfo_uploads : List (String × PendingObject))
    (path_info_by_hash : List (String × String × NixPathInfo))
    (compressed_info : List (String × Nat × String))
    (hok : (upload_narinfos uploadOk narinfo_uploads path_info_by_hash compressed_info).2 =
      Except.ok ()) :
    ∀ e ∈ (upload_narinfos uploadOk narinfo_uploads path_info_by_hash compressed_info).1,
      e.succeeded = true := by
  intro e he
  simp only [upload_narinfos] at he hok
  rw [List.mem_filterMap] at he
  obtain ⟨o, ho, hfst⟩ := he
  have hcoll : ∃ lst, collectResults ((narinfo_uploads.map
      (narinfo_outcome uploadOk path_info_by_hash compressed_info)).map Prod.snd) =
      Except.ok lst := by
    cases hc : collectResults ((narinfo_uploads.map
        (narinfo_outcome uploadOk path_info_by_hash compressed_info)).map Prod.snd) with
    | error e2 =>
      rw [hc] at hok
      exact Except.noConfusion hok
    | ok lst => exact ⟨lst, rfl⟩
  obtain ⟨lst, hlst⟩ := hcoll
  have hsnd : ∃ a, o.2 = Except.ok a :=
    collectResults_ok_mem hlst o.2 (List.mem_map_of_mem Prod.snd ho)
  rw [List.mem_map] at ho
  obtain ⟨u, _, hou⟩ := ho
  rw [← hou] at hfst hsnd
  unfold narinfo_outcome at hfst hsnd
  cases hsuf : stripSuffixOpt ".narinfo" u.1 with
  | none =>
    simp only [hsuf] at hfst
    exact Option.noConfusion hfst
  | some hash =>
    simp only [hsuf] at hfst hsnd
    cases hlook : path_info_by_hash.lookup hash with
    | none =>
      simp only [hlook] at hfst
      exact Option.noConfusion hfst
    | some sp_info =>
      obtain ⟨store_path, path_info⟩ := sp_info
      simp only [hlook] at hfst hsnd
      by_cases hup : uploadOk u.1 = true
      · rw [← Option.some_inj.mp hfst]
        simp [Event.succeeded, hup]
      · obtain ⟨a, ha⟩ := hsnd
        rw [if_neg hup] at ha
        exact Except.noConfusion ha

/-- If some event recorded by upload_narinfos is a failed upload,
upload_narinfos returns an error. -/
theorem upload_narinfos_error_of_failed (uploadOk : String → Bool)
    (narinfo_uploads : List (String × PendingObject))
    (path_info_by_hash : List (String × String × NixPathInfo))
    (compressed_info : List (String × Nat × String)) (e : Event)
    (he : e ∈ (upload_narinfos uploadOk narinfo_uploads path_info_by_hash compressed_info).1)
    (hf : e.succeeded = false) :
    ∃ msg, (upload_narinfos uploadOk narinfo_uploads path_info_by_hash compressed_info).2 =
      Except.error msg := by
  simp only [upload_narinfos] at he ⊢
  rw [List.mem_filterMap] at he
  obtain ⟨o, ho, hfst⟩ := he
  have hoerr : ∃ msg0, o.2 = Except.error msg0 := by
    rw [List.mem_map] at ho
    obtain ⟨u, _, hou⟩ := ho
    rw [← hou] at hfst ⊢
    unfold narinfo_outcome at hfst ⊢
    cases hsuf : stripSuffixOpt ".narinfo" u.1 with
    | none =>
      simp only [hsuf] at hfst
      exact Option.noConfusion hfst
    | some hash =>
      simp only [hsuf] at hfst ⊢
      cases hlook : path_info_by_hash.lookup hash with
      | none =>
        simp only [hlook] at hfst
        exact Option.noConfusion hfst
      | some sp_info =>
        obtain ⟨store_path, path_info⟩ := sp_info
        simp only [hlook] at hfst ⊢
        have he2 := (Option.some_inj.mp hfst).symm
        rw [he2] at hf
        simp only [Event.succeeded] at hf
        rw [if_neg (by rw [hf]; exact Bool.false_ne_true)]
        exact ⟨_, rfl⟩
  obtain ⟨msg0, hmsg0⟩ := hoerr
  have hmem : Except.error msg0 ∈ ((narinfo_uploads.map
      (narinfo_outcome uploadOk path_info_by_hash compressed_info)).map Prod.snd) := by
    rw [← hmsg0]
    exact List.mem_map_of_mem Prod.snd ho
  obtain ⟨msg, hmsg⟩ := collectResults_error_of_mem hmem
  rw [hmsg]
  exact ⟨msg, rfl⟩

/-- Every event recorded by complete_closures is a completion call. -/
theorem complete_closures_events (completeOk : String → Bool) (ids : List String) :
    ∀ e ∈ (complete_closures completeOk ids).1, e.isCompleteCall = true := by
  induction ids with
  | nil => intro e he; cases he
  | cons id rest ih =>
    intro e he
    simp only [complete_closures] at he
    by_cases hc : completeOk id = true
    · rw [if_pos hc] at he
      rcases List.mem_cons.mp he with rfl | he2
      · rfl
      · exact ih e he2
    · rw [if_neg hc] at he
      rcases List.mem_cons.mp he with rfl | he2
      · rfl
      · cases he2

/-- When every completion call succeeds, complete_closures returns success
and records a successful completion call for every transaction id. -/
theorem complete_closures_all_ok (completeOk : String → Bool) (ids : List String)
    (hall : ∀ id ∈ ids, completeOk id = true) :
    (complete_closures completeOk ids).2 = Except.ok () ∧
    ∀ id ∈ ids, Event.complete id true ∈ (complete_closures completeOk ids).1 := by
  induction ids with
  | nil => exact ⟨rfl, fun id hid => absurd hid (List.not_mem_nil id)⟩
  | cons hd rest ih =>
    have hhd : completeOk hd = true := hall hd (List.mem_cons_self hd rest)
    obtain ⟨ih1, ih2⟩ := ih (fun id hid => hall id (List.mem_cons_of_mem _ hid))
    constructor
    · simp only [complete_closures, if_pos hhd]
      exact ih1
    · intro id hid
      simp only [complete_closures, if_pos hhd]
      rcases List.mem_cons.mp hid with rfl | hid2
      · exact List.mem_cons_self _ _
      · exact List.mem_cons_of_mem _ (ih2 id hid2)

/-- Every event recorded by upload_pending_objects is an upload event. -/
theorem upload_pending_objects_events (compress : String → Except String (Nat × String))
    (uploadOk : String → Bool) (pending_objects : List (String × PendingObject))
    (path_info_by_hash : List (String × String × NixPathInfo)) :
    ∀ e ∈ (upload_pending_objects compress uploadOk pending_objects path_info_by_hash).1,
      e.isUpload = true := by
  intro e he
  simp only [upload_pending_objects] at he
  cases hn : (upload_nars compress uploadOk
      (nar_uploads_of pending_objects)
      path_info_by_hash).2 with
  | error err =>
    rw [hn] at he
    simp only at he
    obtain ⟨key, hkey, _⟩ := upload_nars_events compress uploadOk _ path_info_by_hash e he
    rw [hkey]
    rfl
  | ok compressed_info =>
    rw [hn] at he
    simp only at he
    rcases List.mem_append.mp he with h1 | h2
    · obtain ⟨key, hkey, _⟩ := upload_nars_events compress uploadOk _ path_info_by_hash e h1
      rw [hkey]
      rfl
    · obtain ⟨key, hash, sp, pi, _, _, hkey⟩ :=
        upload_narinfos_events uploadOk _ path_info_by_hash compressed_info e h2
      rw [hkey]
      rfl

/-- If upload_pending_objects returns success, every event it recorded
succeeded. -/
theorem upload_pending_objects_ok_all_succeeded
    (compress : String → Except String (Nat × String)) (uploadOk : String → Bool)
    (pending_objects : List (String × PendingObject))
    (path_info_by_hash : List (String × String × NixPathInfo))
    (hok : (upload_pending_objects compress uploadOk pending_objects path_info_by_hash).2 =
      Except.ok ()) :
    ∀ e ∈ (upload_pending_objects compress uploadOk pending_objects path_info_by_hash).1,
      e.succeeded = true := by
  intro e he
  simp only [upload_pending_objects] at he hok
  cases hn : (upload_nars compress uploadOk
      (nar_uploads_of pending_objects)
      path_info_by_hash).2 with
  | error err =>
    rw [hn] at hok
    exact Except.noConfusion hok
  | ok compressed_info =>
    rw [hn] at he hok
    simp only at he hok
    rcases List.mem_append.mp he with h1 | h2
    · exact upload_nars_ok_all_succeeded compress uploadOk _ path_info_by_hash
        ⟨compressed_info, hn⟩ e h1
    · exact upload_narinfos_ok_all_succeeded uploadOk _ path_info_by_hash compressed_info
        hok e h2

/-- If some event recorded by upload_pending_objects is a failed upload, the
whole upload phase returns an error. -/
theorem upload_pending_objects_error_of_failed
    (compress : String → Except String (Nat × String)) (uploadOk : String → Bool)
    (pending_objects : List (String × PendingObject))
    (path_info_by_hash : List (String × String × NixPathInfo)) (e : Event)
    (he : e ∈ (upload_pending_objects compress uploadOk pending_objects path_info_by_hash).1)
    (hf : e.succeeded = false) :
    ∃ msg, (upload_pending_objects compress uploadOk pending_objects path_info_by_hash).2 =
      Except.error msg := by
  simp only [upload_pending_objects] at he ⊢
  cases hn : (upload_nars compress uploadOk
      (nar_uploads_of pending_objects)
      path_info_by_hash).2 with
  | error err =>
    simp only at he ⊢
    exact ⟨err, rfl⟩
  | ok compressed_info =>
    rw [hn] at he
    simp only at he ⊢
    rcases List.mem_append.mp he with h1 | h2
    · obtain ⟨msg, hmsg⟩ :=
        upload_nars_error_of_failed compress uploadOk _ path_info_by_hash e h1 hf
      rw [hmsg] at hn
      exact Except.noConfusion hn
    · exact upload_narinfos_error_of_failed uploadOk _ path_info_by_hash compressed_info
        e h2 hf

/-- A completion call event is not an upload event. -/
theorem event_complete_not_upload (e : Event) (h : e.isCompleteCall = true) :
    e.isUpload = false := by
  cases e <;> simp_all [Event.isUpload, Event.isCompleteCall]

/-- C4: in every push run the trace is a block of upload events followed
by a block of completion calls; if any completion call appears in the
trace then every upload event in the trace succeeded; and if any upload
(archive or narinfo) failed, no transaction is completed in that run. -/
theorem claim_C4_complete_only_after_uploads (compress : String → Except String (Nat × String))
    (uploadOk : String → Bool) (completeOk : String → Bool)
    (pending_objects : List (String × PendingObject))
    (path_info_by_hash : List (String × String × NixPathInfo))
    (pending_ids : List String) :
    (∃ us cs, (push_command compress uploadOk completeOk pending_objects path_info_by_hash
        pending_ids).1 = us ++ cs ∧
      (∀ e ∈ us, e.isUpload = true) ∧ (∀ e ∈ cs, e.isCompleteCall = true)) ∧
    ((∃ id b, Event.complete id b ∈ (push_command compress uploadOk completeOk pending_objects
        path_info_by_hash pending_ids).1) →
      ∀ e ∈ (push_command compress uploadOk completeOk pending_objects path_info_by_hash
        pending_ids).1, e.isUpload = true → e.succeeded = true) ∧
    ((∃ e ∈ (push_command compress uploadOk completeOk pending_objects path_info_by_hash
        pending_ids).1, e.isUpload = true ∧ e.succeeded = false) →
      ∀ id b, Event.complete id b ∉ (push_command compress uploadOk completeOk pending_objects
        path_info_by_hash pending_ids).1) := by
  simp only [push_command]
  cases hu : (upload_pending_objects compress uploadOk pending_objects path_info_by_hash).2 with
  | error err =>
    simp only
    refine ⟨⟨(upload_pending_objects compress uploadOk pending_objects path_info_by_hash).1,
      [], (List.append_nil _).symm,
      upload_pending_objects_events compress uploadOk pending_objects path_info_by_hash,
      fun e he => absurd he (List.not_mem_nil e)⟩, ?_, ?_⟩
    · rintro ⟨id, b, hmem⟩
      have hup := upload_pending_objects_events compress uploadOk pending_objects
        path_info_by_hash _ hmem
      simp [Event.isUpload] at hup
    · rintro - id b hmem
      have hup := upload_pending_objects_events compress uploadOk pending_objects
        path_info_by_hash _ hmem
      simp [Event.isUpload] at hup
  | ok u =>
    simp only
    refine ⟨⟨(upload_pending_objects compress uploadOk pending_objects path_info_by_hash).1,
      (complete_closures completeOk pending_ids).1, rfl,
      upload_pending_objects_events compress uploadOk pending_objects path_info_by_hash,
      complete_closures_events completeOk pending_ids⟩, ?_, ?_⟩
    · rintro - e he hupl
      rcases List.mem_append.mp he with h1 | h2
      · exact upload_pending_objects_ok_all_succeeded compress uploadOk pending_objects
          path_info_by_hash hu e h1
      · have := event_complete_not_upload e (complete_closures_events completeOk pending_ids e h2)
        rw [this] at hupl
        exact absurd hupl (by simp)
    · rintro ⟨e, he, hupl, hfail⟩ id b hmem
      rcases List.mem_append.mp he with h1 | h2
      · obtain ⟨msg, hmsg⟩ := upload_pending_objects_error_of_failed compress uploadOk
          pending_objects path_info_by_hash e h1 hfail
        rw [hmsg] at hu
        exact Except.noConfusion hu
      · have := event_complete_not_upload e (complete_closures_events completeOk pending_ids e h2)
        rw [this] at hupl
        exact absurd hupl (by simp)

/-- C9: if at least one of the scheduled uploads in a push fails, the push
as a whole returns failure, even when every other upload in the same run
succeeded (the witness exhibits a run where one of two uploads fails while
the other succeeds). -/
theorem claim_C9_single_failure_fails_push (compress : String → Except String (Nat × String))
    (uploadOk : String → Bool) (completeOk : String → Bool)
    (pending_objects : List (String × PendingObject))
    (path_info_by_hash : List (String × String × NixPathInfo))
    (pending_ids : List String)
    (h : ∃ e ∈ (push_command compress uploadOk completeOk pending_objects path_info_by_hash
      pending_ids).1, e.isUpload = true ∧ e.succeeded = false) :
    ∃ msg, (push_command compress uploadOk completeOk pending_objects path_info_by_hash
      pending_ids).2 = Except.error msg := by
  obtain ⟨e, he, hupl, hfail⟩ := h
  simp only [push_command] at he ⊢
  cases hu : (upload_pending_objects compress uploadOk pending_objects path_info_by_hash).2 with
  | error err => exact ⟨err, rfl⟩
  | ok u =>
    rw [hu] at he
    simp only at he
    rcases List.mem_append.mp he with h1 | h2
    · obtain ⟨msg, hmsg⟩ := upload_pending_objects_error_of_failed compress uploadOk
        pending_objects path_info_by_hash e h1 hfail
      rw [hmsg] at hu
      exact Except.noConfusion hu
    · have := event_complete_not_upload e (complete_closures_events completeOk pending_ids e h2)
      rw [this] at hupl
      exact absurd hupl (by simp)

/-- With a compressor that always succeeds and an upload oracle that always
succeeds, upload_nars returns success. -/
theorem upload_nars_all_ok (compress : String → Except String (Nat × String))
    (uploadOk : String → Bool) (nar_uploads : List (String × PendingObject))
    (path_info_by_hash : List (String × String × NixPathInfo))
    (hcomp : ∀ sp, ∃ r, compress sp = Except.ok r) (hup : ∀ k, uploadOk k = true) :
    ∃ v, (upload_nars compress uploadOk nar_uploads path_info_by_hash).2 = Except.ok v := by
  simp only [upload_nars]
  have hall : ∀ x ∈ ((nar_upload_outcomes uploadOk
      (nar_compression_results compress nar_uploads path_info_by_hash)).map Prod.snd),
      ∃ a, x = Except.ok a := by
    intro x hx
    rw [List.mem_map] at hx
    obtain ⟨o, ho, hox⟩ := hx
    simp only [nar_upload_outcomes] at ho
    rw [List.mem_map] at ho
    obtain ⟨r, hr, hor⟩ := ho
    simp only [nar_compression_results] at hr
    rw [List.mem_map] at hr
    obtain ⟨d, _, hrd⟩ := hr
    obtain ⟨cr, hcr⟩ := hcomp d.2.2.1
    rw [← hox, ← hor, ← hrd, hcr]
    simp only
    rw [if_pos (hup d.1)]
    exact ⟨_, rfl⟩
  obtain ⟨v, hv⟩ := collectResults_ok_of_all hall
  rw [hv]
  exact ⟨_, rfl⟩

/-- With an upload oracle that always succeeds, upload_narinfos returns
success (keys that do not resolve are skipped with a success outcome). -/
theorem upload_narinfos_all_ok (uploadOk : String → Bool)
    (narinfo_uploads : List (String × PendingObject))
    (path_info_by_hash : List (String × String × NixPathInfo))
    (compressed_info : List (String × Nat × String)) (hup : ∀ k, uploadOk k = true) :
    (upload_narinfos uploadOk narinfo_uploads path_info_by_hash compressed_info).2 =
      Except.ok () := by
  simp only [upload_narinfos]
  have hall : ∀ x ∈ ((narinfo_uploads.map
      (narinfo_outcome uploadOk path_info_by_hash compressed_info)).map Prod.snd),
      ∃ a, x = Except.ok a := by
    intro x hx
    rw [List.mem_map] at hx
    obtain ⟨o, ho, hox⟩ := hx
    rw [List.mem_map] at ho
    obtain ⟨u, _, hou⟩ := ho
    rw [← hox, ← hou]
    unfold narinfo_outcome
    split
    · exact ⟨_, rfl⟩
    · split
      · exact ⟨_, rfl⟩
      · simp only
        rw [if_pos (hup u.1)]
        exact ⟨_, rfl⟩
  obtain ⟨v, hv⟩ := collectResults_ok_of_all hall
  rw [hv]

/-- With always-succeeding oracles the whole upload phase returns success. -/
theorem upload_pending_objects_all_ok (compress : String → Except String (Nat × String))
    (uploadOk : String → Bool) (pending_objects : List (String × PendingObject))
    (path_info_by_hash : List (String × String × NixPathInfo))
    (hcomp : ∀ sp, ∃ r, compress sp = Except.ok r) (hup : ∀ k, uploadOk k = true) :
    (upload_pending_objects compress uploadOk pending_objects path_info_by_hash).2 =
      Except.ok () := by
  simp only [upload_pending_objects]
  obtain ⟨v, hv⟩ := upload_nars_all_ok compress uploadOk (nar_uploads_of pending_objects)
    path_info_by_hash hcomp hup
  rw [hv]
  simp only
  exact upload_narinfos_all_ok uploadOk (narinfo_uploads_of pending_objects)
    path_info_by_hash v hup

/-- narinfo-key pattern check: the key ends in .narinfo and the stripped
hash resolves in the path-info map. -/
def narinfo_key_matches (path_info_by_hash : List (String × String × NixPathInfo))
    (k : String) : Bool :=
  match stripSuffixOpt ".narinfo" k with
  | none => false
  | some h => (path_info_by_hash.lookup h).isSome

/-- Any event of the upload phase comes from the archive-upload pass or,
for some compressed-info table, from the narinfo pass. -/
theorem upload_pending_objects_mem (compress : String → Except String (Nat × String))
    (uploadOk : String → Bool) (pending_objects : List (String × PendingObject))
    (path_info_by_hash : List (String × String × NixPathInfo)) (e : Event)
    (he : e ∈ (upload_pending_objects compress uploadOk pending_objects path_info_by_hash).1) :
    e ∈ (upload_nars compress uploadOk (nar_uploads_of pending_objects) path_info_by_hash).1 ∨
    ∃ ci, e ∈ (upload_narinfos uploadOk (narinfo_uploads_of pending_objects)
      path_info_by_hash ci).1 := by
  simp only [upload_pending_objects] at he
  cases hn : (upload_nars compress uploadOk (nar_uploads_of pending_objects)
      path_info_by_hash).2 with
  | error err =>
    rw [hn] at he
    simp only at he
    exact Or.inl he
  | ok ci =>
    rw [hn] at he
    simp only at he
    rcases List.mem_append.mp he with h1 | h2
    · exact Or.inl h1
    · exact Or.inr ⟨ci, h2⟩

/-- Any event of a push run comes from the upload phase or the completion
phase. -/
theorem push_command_mem (compress : String → Except String (Nat × String))
    (uploadOk : String → Bool) (completeOk : String → Bool)
    (pending_objects : List (String × PendingObject))
    (path_info_by_hash : List (String × String × NixPathInfo))
    (pending_ids : List String) (e : Event)
    (he : e ∈ (push_command compress uploadOk completeOk pending_objects path_info_by_hash
      pending_ids).1) :
    e ∈ (upload_pending_objects compress uploadOk pending_objects path_info_by_hash).1 ∨
    e ∈ (complete_closures completeOk pending_ids).1 := by
  simp only [push_command] at he
  cases hu : (upload_pending_objects compress uploadOk pending_objects path_info_by_hash).2 with
  | error err =>
    rw [hu] at he
    simp only at he
    exact Or.inl he
  | ok u =>
    rw [hu] at he
    simp only at he
    rcases List.mem_append.mp he with h1 | h2
    · exact Or.inl h1
    · exact Or.inr h2

/-- C10: a pending object whose key neither matches nar/(hash).nar.zst
with a hash present in the path-info map nor (hash).narinfo with a hash
present in that map is silently skipped: no upload event is ever recorded
for it, and under otherwise successful oracles the push still succeeds and
completes every negotiated transaction. -/
theorem claim_C10_unmatched_pending_keys_skipped (compress : String → Except String (Nat × String))
    (uploadOk : String → Bool) (completeOk : String → Bool)
    (pending_objects : List (String × PendingObject))
    (path_info_by_hash : List (String × String × NixPathInfo))
    (pending_ids : List String) (key : String)
    (hnar : nar_upload_matches path_info_by_hash key = none)
    (hninfo : narinfo_key_matches path_info_by_hash key = false) :
    (∀ b, Event.uploadNar key b ∉ (push_command compress uploadOk completeOk pending_objects
      path_info_by_hash pending_ids).1) ∧
    (∀ content b, Event.uploadNarinfo key content b ∉ (push_command compress uploadOk completeOk
      pending_objects path_info_by_hash pending_ids).1) ∧
    ((∀ sp, ∃ r, compress sp = Except.ok r) → (∀ k2, uploadOk k2 = true) →
      (∀ i, completeOk i = true) →
      (push_command compress uploadOk completeOk pending_objects path_info_by_hash
        pending_ids).2 = Except.ok () ∧
      ∀ id ∈ pending_ids, Event.complete id true ∈ (push_command compress uploadOk completeOk
        pending_objects path_info_by_hash pending_ids).1) := by
  refine ⟨?_, ?_, ?_⟩
  · intro b hmem
    rcases push_command_mem compress uploadOk completeOk pending_objects path_info_by_hash
      pending_ids _ hmem with h1 | h2
    · rcases upload_pending_objects_mem compress uploadOk pending_objects path_info_by_hash
        _ h1 with hn | ⟨ci, hi⟩
      · obtain ⟨key2, hkey2, hsome⟩ := upload_nars_events compress uploadOk
          (nar_uploads_of pending_objects) path_info_by_hash _ hn
        have hkk : key2 = key := (Event.uploadNar.injEq _ _ _ _).mp hkey2.symm |>.1
        rw [hkk, hnar] at hsome
        simp at hsome
      · obtain ⟨key2, hash, sp, pi, _, _, hkey2⟩ := upload_narinfos_events uploadOk
          (narinfo_uploads_of pending_objects) path_info_by_hash ci _ hi
        exact Event.noConfusion hkey2
    · have := complete_closures_events completeOk pending_ids _ h2
      simp [Event.isCompleteCall] at this
  · intro content b hmem
    rcases push_command_mem compress uploadOk completeOk pending_objects path_info_by_hash
      pending_ids _ hmem with h1 | h2
    · rcases upload_pending_objects_mem compress uploadOk pending_objects path_info_by_hash
        _ h1 with hn | ⟨ci, hi⟩
      · obtain ⟨key2, hkey2, hsome⟩ := upload_nars_events compress uploadOk
          (nar_uploads_of pending_objects) path_info_by_hash _ hn
        exact Event.noConfusion hkey2
      · obtain ⟨key2, hash, sp, pi, hsuf, hlook, hkey2⟩ := upload_narinfos_events uploadOk
          (narinfo_uploads_of pending_objects) path_info_by_hash ci _ hi
        have hkk : key2 = key := ((Event.uploadNarinfo.injEq _ _ _ _ _ _).mp hkey2.symm).1
        rw [hkk] at hsuf
        have : narinfo_key_matches path_info_by_hash key = true := by
          unfold narinfo_key_matches
          rw [hsuf]
          show (path_info_by_hash.lookup hash).isSome = true
          rw [hlook]
          rfl
        rw [this] at hninfo
        exact Bool.noConfusion hninfo
    · have := complete_closures_events completeOk pending_ids _ h2
      simp [Event.isCompleteCall] at this
  · intro hcomp hup hdone
    have huok := upload_pending_objects_all_ok compress uploadOk pending_objects
      path_info_by_hash hcomp hup
    obtain ⟨hcok, hcmem⟩ := complete_closures_all_ok completeOk pending_ids
      (fun id _ => hdone id)
    constructor
    · simp only [push_command, huok]
      exact hcok
    · intro id hid
      simp only [push_command, huok]
      exact List.mem_append_right _ (hcmem id hid)

def missingNarInfo : NixPathInfo := ⟨"/nix/store/aaa-a", "sha256:nh", 100, [], none, none, none⟩

/-- C3 (code bug evaluation at the failing input): when the narinfo key
aaa.narinfo is pending but the archive key nar/aaa.nar.zst is not, the
pipeline renders and uploads the narinfo with FileSize 0 and an empty
FileHash from the unwrap_or fallback - not with the values the archive
compression step would produce (here (7, "ch")) - and the push still
reports success. -/
theorem claim_C3_narinfo_rendered_with_zero_fallback :
    (upload_pending_objects (fun _ => Except.ok (7, "ch")) (fun _ => true)
        [("aaa.narinfo", ⟨"u"⟩)] [("aaa", "/nix/store/aaa-a", missingNarInfo)]) =
      ([Event.uploadNarinfo "aaa.narinfo"
          (create_narinfo missingNarInfo "aaa.nar.zst" 0 "") true], Except.ok ()) ∧
    create_narinfo missingNarInfo "aaa.nar.zst" 0 "" =
      "StorePath: /nix/store/aaa-a\nURL: nar/aaa.nar.zst\nCompression: zstd\nNarHash: sha256:nh\nNarSize: 100\nFileHash: \nFileSize: 0\nReferences:\n" ∧
    create_narinfo missingNarInfo "aaa.nar.zst" 0 "" ≠
      create_narinfo missingNarInfo "aaa.nar.zst" 7 "ch" := by
  exact ⟨by decide, by decide, by decide⟩

def refInfoA : NixPathInfo :=
  ⟨"/nix/store/aaa-a", "sha256:na", 1, ["/nix/store/bbb-b"], none, none, none⟩

/-- C1 counterexample: for a path whose record references /nix/store/bbb-b,
prepare_closures builds the narinfo UploadObject with refs equal to
[bbb, nar/aaa.nar.zst]; the dependency narinfo key bbb.narinfo claimed by
C1 is not among the refs. -/
theorem claim_C1_counterexample :
    prepare_closures [("/nix/store/aaa-a", refInfoA)] =
      Except.ok ⟨[("aaa.narinfo",
        [⟨"aaa.narinfo", ["bbb", "nar/aaa.nar.zst"]⟩, ⟨"nar/aaa.nar.zst", []⟩])],
        [("aaa", "/nix/store/aaa-a", refInfoA)]⟩ ∧
    ("bbb.narinfo" : String) ∉ (["bbb", "nar/aaa.nar.zst"] : List String) := by
  exact ⟨by decide, by decide⟩

/-- C1 amended: for every PathRecord in the closure, the narinfo
UploadObject built for it has refs consisting of every dependency s bare
store-path hash (not suffixed with .narinfo) plus its own archive object
key nar/(hash).nar.zst, and the archive UploadObject has an empty refs
list. -/
theorem claim_C1_narinfo_refs_amended (path_infos : List (String × NixPathInfo))
    (prepared : PreparedClosures)
    (hok : prepare_closures path_infos = Except.ok prepared) :
    ∀ sp info, (sp, info) ∈ path_infos → ∃ hash depHashes,
      get_store_path_hash sp = Except.ok hash ∧
      info.references.mapM get_store_path_hash = Except.ok depHashes ∧
      (hash ++ ".narinfo",
        [ObjectWithRefs.mk (hash ++ ".narinfo")
          (depHashes ++ ["nar/" ++ hash ++ ".nar.zst"]),
         ObjectWithRefs.mk ("nar/" ++ hash ++ ".nar.zst") []]) ∈ prepared.closures := by
  induction path_infos generalizing prepared with
  | nil => intro sp info h; cases h
  | cons hd rest ih =>
    obtain ⟨store_path, path_info⟩ := hd
    intro sp info hmem
    simp only [prepare_closures] at hok
    cases hh : get_store_path_hash store_path with
    | error e =>
      rw [hh] at hok
      exact Except.noConfusion hok
    | ok hash =>
      rw [hh] at hok
      simp only at hok
      cases href : path_info.references.mapM get_store_path_hash with
      | error e =>
        rw [href] at hok
        exact Except.noConfusion hok
      | ok references =>
        rw [href] at hok
        simp only at hok
        cases hrest : prepare_closures rest with
        | error e =>
          rw [hrest] at hok
          exact Except.noConfusion hok
        | ok prep2 =>
          rw [hrest] at hok
          simp only at hok
          have hpe : prepared = ⟨(hash ++ ".narinfo",
              [⟨hash ++ ".narinfo", references ++ ["nar/" ++ hash ++ ".nar.zst"]⟩,
               ⟨"nar/" ++ hash ++ ".nar.zst", []⟩]) :: prep2.closures,
              (hash, store_path, path_info) :: prep2.path_info_by_hash⟩ :=
            (Option.some_inj.mp (congrArg Except.toOption hok)).symm
          rcases List.mem_cons.mp hmem with heq | htail
          · obtain ⟨h1, h2⟩ := Prod.mk.inj heq
            subst h1
            subst h2
            refine ⟨hash, references, hh, href, ?_⟩
            rw [hpe]
            exact List.mem_cons_self _ _
          · obtain ⟨hash2, dep2, hh2, href2, hmem2⟩ := ih prep2 hrest sp info htail
            refine ⟨hash2, dep2, hh2, href2, ?_⟩
            rw [hpe]
            exact List.mem_cons_of_mem _ hmem2

def c1PreparedWitness : PreparedClosures :=
  ⟨[("aaa.narinfo",
    [⟨"aaa.narinfo", ["bbb", "nar/aaa.nar.zst"]⟩, ⟨"nar/aaa.nar.zst", []⟩])],
    [("aaa", "/nix/store/aaa-a", refInfoA)]⟩

theorem claim_C1_narinfo_refs_amended_witness :
    prepare_closures [("/nix/store/aaa-a", refInfoA)] = Except.ok c1PreparedWitness ∧
    (∀ sp info, (sp, info) ∈ [("/nix/store/aaa-a", refInfoA)] → ∃ hash depHashes,
      get_store_path_hash sp = Except.ok hash ∧
      info.references.mapM get_store_path_hash = Except.ok depHashes ∧
      (hash ++ ".narinfo",
        [ObjectWithRefs.mk (hash ++ ".narinfo")
          (depHashes ++ ["nar/" ++ hash ++ ".nar.zst"]),
         ObjectWithRefs.mk ("nar/" ++ hash ++ ".nar.zst") []]) ∈
        c1PreparedWitness.closures) :=
  ⟨by decide, claim_C1_narinfo_refs_amended _ c1PreparedWitness (by decide)⟩

/-- The first seven narinfo lines (everything create_narinfo writes before
the References line). -/
def narinfoPre (path_info : NixPathInfo) (nar_filename : String)
    (compressed_size : Nat) (file_hash : String) : String :=
  "StorePath: " ++ path_info.path ++ "\n" ++
  "URL: nar/" ++ nar_filename ++ "\n" ++
  "Compression: zstd" ++ "\n" ++
  "NarHash: " ++ path_info.nar_hash ++ "\n" ++
  "NarSize: " ++ toString path_info.nar_size ++ "\n" ++
  "FileHash: " ++ file_hash ++ "\n" ++
  "FileSize: " ++ toString compressed_size ++ "\n"

/-- The optional trailing narinfo fields (Deriver, Sig, CA). -/
def narinfoRest (path_info : NixPathInfo) : String :=
  (match path_info.deriver with
   | some d => "Deriver: " ++ stripStoreDir d ++ "\n"
   | none => "") ++
  (match path_info.signatures with
   | some sigs => sigsPart sigs
   | none => "") ++
  (match path_info.ca with
   | some ca => "CA: " ++ ca ++ "\n"
   | none => "")

/-- Space-separated rendering of a list of strings. -/
def sepSpace : List String → String
  | [] => ""
  | [x] => x
  | x :: xs => x ++ " " ++ sepSpace xs

theorem refsPart_eq_sepSpace (r : String) (rs : List String) :
    refsPart (r :: rs) = " " ++ sepSpace ((r :: rs).map stripStoreDir) := by
  induction rs generalizing r with
  | nil => simp [refsPart, sepSpace]
  | cons r2 rs2 ih =>
    show " " ++ stripStoreDir r ++ refsPart (r2 :: rs2) = _
    rw [ih r2]
    show _ = " " ++ (stripStoreDir r ++ " " ++ sepSpace ((r2 :: rs2).map stripStoreDir))
    apply String.ext
    simp [String.data_append]

/-- C2 counterexample: for a path whose reference set is empty, the
narinfo rendered during a push still contains a References line: the line
References: (with no entries) is among the rendered lines, contradicting
the claim that the line is omitted when the set is empty. -/
theorem claim_C2_counterexample :
    "References:".data ∈
      splitOnChar '\n' (create_narinfo missingNarInfo "aaa.nar.zst" 0 "").data := by
  decide

/-- C2 amended: every narinfo rendered during a push contains exactly one
References segment; when the path s reference set is empty it is the bare
line References: (not omitted), and when non-empty it lists the
dependencies basenames (store-dir prefix stripped) separated by single
spaces. -/
theorem claim_C2_references_line_amended (path_info : NixPathInfo) (nar_filename : String)
    (compressed_size : Nat) (file_hash : String) :
    create_narinfo path_info nar_filename compressed_size file_hash =
      narinfoPre path_info nar_filename compressed_size file_hash ++
        ("References:" ++ refsPart path_info.references ++ "\n") ++
        narinfoRest path_info ∧
    (path_info.references = [] →
      "References:" ++ refsPart path_info.references ++ "\n" = "References:\n") ∧
    (path_info.references ≠ [] →
      "References:" ++ refsPart path_info.references ++ "\n" =
        "References: " ++ sepSpace (path_info.references.map stripStoreDir) ++ "\n") := by
  refine ⟨?_, ?_, ?_⟩
  · apply String.ext
    simp [create_narinfo, narinfoPre, narinfoRest, String.data_append]
  · intro h
    rw [h]
    rfl
  · intro h
    cases hr : path_info.references with
    | nil => exact absurd hr h
    | cons r rs =>
      rw [refsPart_eq_sepSpace r rs]
      apply String.ext
      simp [String.data_append]

theorem claim_C2_references_line_amended_witness :
    (refInfoA.references ≠ []) ∧
    ("References:" ++ refsPart refInfoA.references ++ "\n" =
      "References: " ++ sepSpace (refInfoA.references.map stripStoreDir) ++ "\n") :=
  ⟨by decide, (claim_C2_references_line_amended refInfoA "aaa.nar.zst" 0 "").2.2 (by decide)⟩

def refInfoB : NixPathInfo := ⟨"/nix/store/bbb-b", "sha256:nb", 2, [], none, none, none⟩

theorem claim_C4_complete_only_after_uploads_witness :
    (∃ id b, Event.complete id b ∈ (push_command (fun _ => Except.ok (7, "ch"))
      (fun _ => true) (fun _ => true)
      [("nar/aaa.nar.zst", ⟨"u1"⟩), ("aaa.narinfo", ⟨"u2"⟩)]
      [("aaa", "/nix/store/aaa-a", missingNarInfo)] ["t1"]).1) ∧
    (∀ e ∈ (push_command (fun _ => Except.ok (7, "ch")) (fun _ => true) (fun _ => true)
      [("nar/aaa.nar.zst", ⟨"u1"⟩), ("aaa.narinfo", ⟨"u2"⟩)]
      [("aaa", "/nix/store/aaa-a", missingNarInfo)] ["t1"]).1,
      e.isUpload = true → e.succeeded = true) :=
  ⟨⟨"t1", true, by decide⟩,
    (claim_C4_complete_only_after_uploads (fun _ => Except.ok (7, "ch")) (fun _ => true) (fun _ => true)
      [("nar/aaa.nar.zst", ⟨"u1"⟩), ("aaa.narinfo", ⟨"u2"⟩)]
      [("aaa", "/nix/store/aaa-a", missingNarInfo)] ["t1"]).2.1 ⟨"t1", true, by decide⟩⟩

theorem claim_C9_single_failure_fails_push_witness :
    (∃ e ∈ (push_command (fun _ => Except.ok (7, "ch"))
      (fun k => !(k == "nar/bbb.nar.zst")) (fun _ => true)
      [("nar/aaa.nar.zst", ⟨"u1"⟩), ("nar/bbb.nar.zst", ⟨"u2"⟩)]
      [("aaa", "/nix/store/aaa-a", missingNarInfo), ("bbb", "/nix/store/bbb-b", refInfoB)]
      ["t1"]).1, e.isUpload = true ∧ e.succeeded = false) ∧
    (∃ msg, (push_command (fun _ => Except.ok (7, "ch"))
      (fun k => !(k == "nar/bbb.nar.zst")) (fun _ => true)
      [("nar/aaa.nar.zst", ⟨"u1"⟩), ("nar/bbb.nar.zst", ⟨"u2"⟩)]
      [("aaa", "/nix/store/aaa-a", missingNarInfo), ("bbb", "/nix/store/bbb-b", refInfoB)]
      ["t1"]).2 = Except.error msg) :=
  ⟨by decide,
    claim_C9_single_failure_fails_push (fun _ => Except.ok (7, "ch")) (fun k => !(k == "nar/bbb.nar.zst"))
      (fun _ => true)
      [("nar/aaa.nar.zst", ⟨"u1"⟩), ("nar/bbb.nar.zst", ⟨"u2"⟩)]
      [("aaa", "/nix/store/aaa-a", missingNarInfo), ("bbb", "/nix/store/bbb-b", refInfoB)]
      ["t1"] (by decide)⟩

def wCompress : String → Except String (Nat × String) := fun _ => Except.ok (7, "ch")

def wAllTrue : String → Bool := fun _ => true

theorem claim_C10_unmatched_pending_keys_skipped_witness :
    (nar_upload_matches [("aaa", "/nix/store/aaa-a", missingNarInfo)] "xyz.narinfo" = none ∧
     narinfo_key_matches [("aaa", "/nix/store/aaa-a", missingNarInfo)] "xyz.narinfo" = false) ∧
    ((∀ b, Event.uploadNar "xyz.narinfo" b ∉ (push_command wCompress wAllTrue wAllTrue
        [("xyz.narinfo", ⟨"u1"⟩), ("bogus.key", ⟨"u2"⟩)]
        [("aaa", "/nix/store/aaa-a", missingNarInfo)] ["t1"]).1) ∧
    (∀ content b, Event.uploadNarinfo "xyz.narinfo" content b ∉
      (push_command wCompress wAllTrue wAllTrue
        [("xyz.narinfo", ⟨"u1"⟩), ("bogus.key", ⟨"u2"⟩)]
        [("aaa", "/nix/store/aaa-a", missingNarInfo)] ["t1"]).1) ∧
    ((∀ sp, ∃ r, wCompress sp = Except.ok r) → (∀ k2, wAllTrue k2 = true) →
      (∀ i, wAllTrue i = true) →
      (push_command wCompress wAllTrue wAllTrue
        [("xyz.narinfo", ⟨"u1"⟩), ("bogus.key", ⟨"u2"⟩)]
        [("aaa", "/nix/store/aaa-a", missingNarInfo)] ["t1"]).2 = Except.ok () ∧
      ∀ id ∈ ["t1"], Event.complete id true ∈ (push_command wCompress wAllTrue wAllTrue
        [("xyz.narinfo", ⟨"u1"⟩), ("bogus.key", ⟨"u2"⟩)]
        [("aaa", "/nix/store/aaa-a", missingNarInfo)] ["t1"]).1)) :=
  ⟨⟨by decide, by decide⟩,
    claim_C10_unmatched_pending_keys_skipped wCompress wAllTrue wAllTrue
      [("xyz.narinfo", ⟨"u1"⟩), ("bogus.key", ⟨"u2"⟩)]
      [("aaa", "/nix/store/aaa-a", missingNarInfo)] ["t1"] "xyz.narinfo"
      (by decide) (by decide)⟩


end Niks3
